import Mathlib

/-!
Verification of the SPC local encrypted vault engine.

Shallow embedding of the vault engine: the `SPCCrypto` module
(`src/js/core/bus.js`: `encrypt`, `decrypt`, `checkVerifier`,
`evaluateStrength`, `timingSafeEqual`, `uint8ToBase64`, `base64ToUint8`)
and the `VaultService` module (`src/unnamed/part_002`: the in-memory
session, `getAll`, `getById`, `save`, `remove`, `search`, `getGroups`,
`persist`, `audit`).

Modelling conventions:
* JS strings are `List Char`; byte sequences (`Uint8Array`) are `List Nat`
  with every element `< 256` where it matters.
* Timestamps (`Date.now()`) are `Nat`; the JS falsy check `e.ts || other`
  becomes `if ts ≠ 0 then ts else other`.
* Platform cryptographic primitives (`crypto.subtle` PBKDF2 / AES-GCM /
  SHA-256 digest and the TextEncoder/TextDecoder pair) are parameters of
  the embedded functions, mirroring the spec's "trusted cryptographic
  primitives provider" boundary; theorems assume only the contracts the
  platform guarantees (AEAD round-trip, digest output length, text codec
  round-trip) and witnesses instantiate them concretely.
* The platform `btoa`/`atob` pair is modelled concretely as standard
  base64 below (`uint8ToBase64` / `base64ToUint8`), since the blob layout
  claims depend on the decode failing on malformed text.
* JS `Math.round` is `⌊x + 1/2⌋` (round half towards positive infinity);
  JS number arithmetic in the audit score is modelled in `ℚ`.
-/

namespace SPC

/-- The 64-character base64 alphabet used by the platform `btoa`/`atob`. -/
def b64Alphabet : List Char :=
  ['A','B','C','D','E','F','G','H','I','J','K','L','M','N','O','P','Q','R',
   'S','T','U','V','W','X','Y','Z','a','b','c','d','e','f','g','h','i','j',
   'k','l','m','n','o','p','q','r','s','t','u','v','w','x','y','z','0','1',
   '2','3','4','5','6','7','8','9','+','/']

/-- Character for a 6-bit group. -/
def sextetToChar (n : Nat) : Char := b64Alphabet.getD n 'A'

/-- The 6-bit group for a base64 character (`none` if the character is not in
the alphabet, matching `atob` rejecting the input). -/
def charToSextet (c : Char) : Option Nat := b64Alphabet.findIdx? (fun x => x = c)

/-- Base64 encoding of a byte list; models `uint8ToBase64` in
`src/js/core/bus.js` (a loop building a binary string followed by `btoa`). -/
def b64EncodeAux : List Nat → List Char
  | [] => []
  | [b0] =>
      [sextetToChar (b0 / 4), sextetToChar (b0 % 4 * 16), '=', '=']
  | [b0, b1] =>
      [sextetToChar (b0 / 4), sextetToChar (b0 % 4 * 16 + b1 / 16),
       sextetToChar (b1 % 16 * 4), '=']
  | b0 :: b1 :: b2 :: rest =>
      sextetToChar (b0 / 4) :: sextetToChar (b0 % 4 * 16 + b1 / 16) ::
      sextetToChar (b1 % 16 * 4 + b2 / 64) :: sextetToChar (b2 % 64) ::
      b64EncodeAux rest

/-- Function `uint8ToBase64` from `src/js/core/bus.js`. -/
def uint8ToBase64 (bytes : List Nat) : List Char := b64EncodeAux bytes

/-- Base64 decoding; models the platform `atob` used by `base64ToUint8`
(invalid characters or an impossible length yield `none`, matching `atob`
throwing; ASCII-whitespace stripping is not modelled). -/
def b64DecodeAux : List Char → Option (List Nat)
  | [] => some []
  | [c0, c1] =>
      match charToSextet c0, charToSextet c1 with
      | some s0, some s1 => some [s0 * 4 + s1 / 16]
      | _, _ => none
  | [c0, c1, c2] =>
      match charToSextet c0, charToSextet c1, charToSextet c2 with
      | some s0, some s1, some s2 =>
          some [s0 * 4 + s1 / 16, s1 % 16 * 16 + s2 / 4]
      | _, _, _ => none
  | c0 :: c1 :: c2 :: c3 :: rest =>
      if c3 = '=' then
        if rest = [] then
          if c2 = '=' then
            match charToSextet c0, charToSextet c1 with
            | some s0, some s1 => some [s0 * 4 + s1 / 16]
            | _, _ => none
          else
            match charToSextet c0, charToSextet c1, charToSextet c2 with
            | some s0, some s1, some s2 =>
                some [s0 * 4 + s1 / 16, s1 % 16 * 16 + s2 / 4]
            | _, _, _ => none
        else none
      else
        match charToSextet c0, charToSextet c1, charToSextet c2,
              charToSextet c3, b64DecodeAux rest with
        | some s0, some s1, some s2, some s3, some bs =>
            some ((s0 * 4 + s1 / 16) :: (s1 % 16 * 16 + s2 / 4) ::
                  (s2 % 4 * 64 + s3) :: bs)
        | _, _, _, _, _ => none
  | _ => none

/-- Function `base64ToUint8` from `src/js/core/bus.js`. -/
def base64ToUint8 (s : List Char) : Option (List Nat) := b64DecodeAux s

/-- The trusted platform primitives used by `SPCCrypto`
(`crypto.subtle` key derivation, AES-GCM, SHA-256, and the
TextEncoder/TextDecoder pair). A key is opaque byte material;
`aeadEnc key iv plaintextBytes` returns `ciphertext ‖ tag`. -/
structure Platform where
  deriveKey : List Char → List Nat → List Nat
  aeadEnc : List Nat → List Nat → List Nat → List Nat
  aeadDec : List Nat → List Nat → List Nat → Option (List Nat)
  digest : List Nat → List Nat
  encodeText : List Char → List Nat
  decodeText : List Nat → List Char

/-- Error kinds surfaced by the embedded `SPCCrypto` functions. -/
inductive CryptoErr
  | invalidInput
  | decryptFailed
deriving DecidableEq

/-- Constant `SALT_LENGTH` from `src/js/core/bus.js`. -/
def SALT_LENGTH : Nat := 16

/-- Constant `IV_LENGTH` from `src/js/core/bus.js`. -/
def IV_LENGTH : Nat := 12

/-- Function `encrypt` from `src/js/core/bus.js`: rejects an empty password, then
packs `salt ‖ iv ‖ aeadEnc(deriveKey(password, salt), iv, plaintext)` and
base64-encodes it. The fresh random `salt` and `iv` drawn from
`crypto.getRandomValues` are passed in as arguments. -/
def encrypt (P : Platform) (salt iv : List Nat) (plaintext password : List Char) :
    Except CryptoErr (List Char) :=
  if password = [] then .error .invalidInput
  else
    let key := P.deriveKey password salt
    let ciphertext := P.aeadEnc key iv (P.encodeText plaintext)
    .ok (uint8ToBase64 (salt ++ iv ++ ciphertext))

/-- Function `decrypt` from `src/js/core/bus.js`: rejects empty inputs, base64
decodes (a decode failure, like any AEAD failure, surfaces as the single
ambiguous decrypt-failure kind), checks the minimum length
`salt + iv + 1`, splits the packed bytes and AEAD-decrypts with the key
re-derived from the embedded salt. -/
def decrypt (P : Platform) (cipherBundle password : List Char) :
    Except CryptoErr (List Char) :=
  if cipherBundle = [] then .error .invalidInput
  else if password = [] then .error .invalidInput
  else
    match base64ToUint8 cipherBundle with
    | none => .error .decryptFailed
    | some packed =>
      if packed.length < SALT_LENGTH + IV_LENGTH + 1 then .error .decryptFailed
      else
        let salt := packed.take SALT_LENGTH
        let iv := (packed.drop SALT_LENGTH).take IV_LENGTH
        let ciphertext := packed.drop (SALT_LENGTH + IV_LENGTH)
        let key := P.deriveKey password salt
        match P.aeadDec key iv ciphertext with
        | none => .error .decryptFailed
        | some plainBytes => .ok (P.decodeText plainBytes)

/-- Function `timingSafeEqual` from `src/js/core/bus.js`: length check, then an
accumulated bitwise-or of xors compared with zero. -/
def timingSafeEqual (a b : List Nat) : Bool :=
  if a.length ≠ b.length then false
  else decide (((a.zip b).foldl (fun result p => result ||| (p.1 ^^^ p.2)) 0) = 0)

/-- Function `checkVerifier` from `src/js/core/bus.js`: decodes the verifier
(`none`, i.e. an `atob` throw, is caught and yields `false`), splits a
32-byte salt from the stored hash, recomputes
`digest(salt ‖ digest(password))` and compares in constant time. -/
def checkVerifier (P : Platform) (password verifier : List Char) : Bool :=
  match base64ToUint8 verifier with
  | none => false
  | some data =>
    let salt := data.take 32
    let storedHash := data.drop 32
    let pwdHash := P.digest (P.encodeText password)
    let combined := salt ++ pwdHash
    let computedHash := P.digest combined
    timingSafeEqual storedHash computedHash

/-- The `/[a-z]/` character test in `evaluateStrength`. -/
def jsIsLower (c : Char) : Bool := 97 ≤ c.toNat && c.toNat ≤ 122

/-- The `/[A-Z]/` character test in `evaluateStrength`. -/
def jsIsUpper (c : Char) : Bool := 65 ≤ c.toNat && c.toNat ≤ 90

/-- The `/\d/` character test in `evaluateStrength`. -/
def jsIsDigit (c : Char) : Bool := 48 ≤ c.toNat && c.toNat ≤ 57

/-- The `/[a-zA-Z]/` character test in `evaluateStrength`. -/
def jsIsAlpha (c : Char) : Bool := jsIsLower c || jsIsUpper c

/-- ASCII lower-casing, as performed by a case-insensitive regex match. -/
def jsToLowerChar (c : Char) : Char :=
  if jsIsUpper c then Char.ofNat (c.toNat + 32) else c

/-- The `/(.)\1\x7b2,\x7d/` test: some character repeated at least three times in a row. -/
def hasRepeatRun : List Char → Bool
  | a :: b :: c :: rest => (a = b && b = c) || hasRepeatRun (b :: c :: rest)
  | _ => false

/-- The `weakPatterns` prefix list of `evaluateStrength`: `^123`, `^abc`
(case-insensitive), `^password` (ci), `^qwerty` (ci), `^111`, `^000`,
`^admin` (ci). -/
def matchesWeakPattern (password : List Char) : Bool :=
  List.isPrefixOf ['1','2','3'] password ||
  List.isPrefixOf ['a','b','c'] (password.map jsToLowerChar) ||
  List.isPrefixOf ['p','a','s','s','w','o','r','d'] (password.map jsToLowerChar) ||
  List.isPrefixOf ['q','w','e','r','t','y'] (password.map jsToLowerChar) ||
  List.isPrefixOf ['1','1','1'] password ||
  List.isPrefixOf ['0','0','0'] password ||
  List.isPrefixOf ['a','d','m','i','n'] (password.map jsToLowerChar)

/-- The numeric score of `evaluateStrength` from `src/js/core/bus.js`.
The presentation fields of the returned object (`level`, `label`,
`percent`, `color`) are a pure lookup by this score and are not modelled.
JS `Math.max(· , 0)` around the penalty subtractions coincides with
truncated `Nat` subtraction, and the final clamp
`Math.min(Math.max(score, 0), 4)` is `min score 4` on `Nat`. -/
def evaluateStrength (password : List Char) : Nat :=
  if password = [] then 0
  else
    let lenScore := (if 8 ≤ password.length then 1 else 0) +
      (if 14 ≤ password.length then 1 else 0) +
      (if 20 ≤ password.length then 1 else 0)
    let charTypes := (if password.any jsIsLower then 1 else 0) +
      (if password.any jsIsUpper then 1 else 0) +
      (if password.any jsIsDigit then 1 else 0) +
      (if password.any (fun c => !(jsIsAlpha c || jsIsDigit c)) then 1 else 0)
    let score1 := lenScore + (charTypes - 1)
    let score2 :=
      if password.all jsIsDigit || password.all jsIsAlpha then score1 - 2
      else score1
    let score3 := if hasRepeatRun password then score2 - 1 else score2
    let score4 := if matchesWeakPattern password then score3 - 1 else score3
    let score5 := if password.length < 6 then min score4 1 else score4
    min score5 4

/-- A decrypted vault record (`VaultEntry`), as assembled by
`VaultService.save` in `src/unnamed/part_002`. -/
structure Entry where
  id : List Char
  name : List Char
  username : List Char
  password : List Char
  url : List Char
  notes : List Char
  group : List Char
  pwdChangedAt : Nat
  createdAt : Nat
  updatedAt : Nat
deriving DecidableEq

/-- The caller-supplied record handed to `save` (field absence and the
empty string coincide under the JS `|| ''` defaulting; `save` ignores any
caller-supplied timestamps). -/
structure EntryInput where
  id : List Char
  name : List Char
  username : List Char
  password : List Char
  url : List Char
  notes : List Char
  group : List Char
deriving DecidableEq

/-- Events published on `SPCBus` by `VaultService`. -/
inductive Event
  | vaultUnlocked (count : Option Nat)
  | vaultLocked
  | entrySaved (entry : Entry)
  | entryDeleted (id : List Char)
  | errorEvent
deriving DecidableEq

/-- Error kinds thrown by `VaultService` operations. -/
inductive VaultErr
  | vaultLocked
deriving DecidableEq

/-- The module-level mutable session of `VaultService`
(`_masterKey`, `_entries`, `_locked`). -/
structure VaultSession where
  masterKey : Option (List Char)
  entries : List Entry
  locked : Bool
deriving DecidableEq

/-- The persistence collaborator: the two `localStorage` keys used by
`VaultService` (`trisync_vault` and `spc_vault_verifier`). -/
structure Store where
  vaultBlob : Option (List Char)
  verifierBlob : Option (List Char)
deriving DecidableEq

/-- The world a `VaultService` operation acts on: the in-memory session,
the persistence store, and the trace of events emitted on `SPCBus`. -/
structure World where
  session : VaultSession
  store : Store
  events : List Event
deriving DecidableEq

/-- Function `getAll` from `src/unnamed/part_002`: `assertUnlocked`, then the
decrypted entry list (the JS spread copy returns the same list value). -/
def getAll (w : World) : Except VaultErr (List Entry) :=
  if w.session.locked then .error .vaultLocked
  else .ok w.session.entries

/-- Function `getById` from `src/unnamed/part_002`. -/
def getById (id : List Char) (w : World) : Except VaultErr (Option Entry) :=
  if w.session.locked then .error .vaultLocked
  else .ok (w.session.entries.find? (fun e => e.id = id))

/-- Case-insensitive substring test: `String.prototype.includes` after
`toLowerCase` on both sides. -/
def jsIncludesCI (hay needle : List Char) : Bool :=
  decide ((needle.map jsToLowerChar) <:+: (hay.map jsToLowerChar))

/-- Function `search` from `src/unnamed/part_002`: `assertUnlocked`, then either
`getAll` for an empty query or a case-insensitive substring filter over
name/username/url/group. -/
def search (query : List Char) (w : World) : Except VaultErr (List Entry) :=
  if w.session.locked then .error .vaultLocked
  else if query = [] then getAll w
  else .ok (w.session.entries.filter (fun e =>
    jsIncludesCI e.name query || jsIncludesCI e.username query ||
    jsIncludesCI e.url query || jsIncludesCI e.group query))

/-- Insertion-order deduplication, as performed by a JS `Set` or by the
keys of a plain JS object: each key appears once, at the position of its
first occurrence. -/
def dedupFirst {κ : Type} [DecidableEq κ] : List κ → List κ
  | [] => []
  | k :: t => k :: (dedupFirst t).filter (fun x => x ≠ k)

/-- Lexicographic comparison of JS strings, as used by the default
`Array.prototype.sort`. -/
def lexLe : List Char → List Char → Bool
  | [], _ => true
  | _ :: _, [] => false
  | a :: as, b :: bs => if a < b then true else if b < a then false else lexLe as bs

/-- Stable insertion of one element into a sorted list. -/
def insertLe {α : Type} (le : α → α → Bool) (a : α) : List α → List α
  | [] => [a]
  | b :: t => if le a b then a :: b :: t else b :: insertLe le a t

/-- The JS `Array.prototype.sort`, modelled as insertion sort with the given
comparison. -/
def sortLe {α : Type} (le : α → α → Bool) (l : List α) : List α :=
  l.foldr (insertLe le) []

/-- Function `getGroups` from `src/unnamed/part_002`: `assertUnlocked`, then the
sorted deduplicated non-empty group labels. -/
def getGroups (w : World) : Except VaultErr (List (List Char)) :=
  if w.session.locked then .error .vaultLocked
  else .ok (sortLe lexLe
    (dedupFirst ((w.session.entries.map (fun e => e.group)).filter (fun g => g ≠ []))))

/-- Function `persist` from `src/unnamed/part_002`: a no-op without a master key;
otherwise encrypts the serialized entry set and writes it, catching any
failure and emitting an `ERROR` event instead of rethrowing. The combined
outcome of `SPCCrypto.encrypt` (randomness, JSON serialization) and
`localStorage.setItem` is supplied as the `persistResult` argument:
`some blob` for a successful write of `blob`, `none` for a failure. -/
def persist (persistResult : Option (List Char)) (w : World) : World :=
  match w.session.masterKey with
  | none => w
  | some _ =>
    match persistResult with
    | some blob => { w with store := { w.store with vaultBlob := some blob } }
    | none => { w with events := w.events ++ [Event.errorEvent] }

/-- Function `save` from `src/unnamed/part_002`: `assertUnlocked`; looks up an
existing entry when the input carries a (truthy, i.e. non-empty)
identifier; assembles the entry with `crypto.randomUUID()` supplied as
`uuid` and `Date.now()` supplied as `now`; replaces in place via
`findIndex` or prepends via `unshift`; then persists and emits
`VAULT_ENTRY_SAVED`. -/
def save (now : Nat) (uuid : List Char) (persistResult : Option (List Char))
    (data : EntryInput) (w : World) : Except VaultErr Entry × World :=
  if w.session.locked then (.error .vaultLocked, w)
  else
    let existing : Option Entry :=
      if data.id ≠ [] then w.session.entries.find? (fun e => e.id = data.id)
      else none
    let entry : Entry := {
      id := if data.id ≠ [] then data.id else uuid
      name := data.name
      username := data.username
      password := data.password
      url := data.url
      notes := data.notes
      group := data.group
      pwdChangedAt :=
        match existing with
        | some ex =>
            if ex.password ≠ data.password then now
            else if ex.pwdChangedAt ≠ 0 then ex.pwdChangedAt else now
        | none => now
      createdAt :=
        match existing with
        | some ex => if ex.createdAt ≠ 0 then ex.createdAt else now
        | none => now
      updatedAt := now }
    let entries' :=
      match existing with
      | some _ =>
          w.session.entries.set
            (w.session.entries.findIdx (fun e => e.id = entry.id)) entry
      | none => entry :: w.session.entries
    let w1 := { w with session := { w.session with entries := entries' } }
    let w2 := persist persistResult w1
    (.ok entry, { w2 with events := w2.events ++ [Event.entrySaved entry] })

/-- Function `remove` from `src/unnamed/part_002`: `assertUnlocked`, filters the
entry out, persists, emits `VAULT_ENTRY_DELETED`. -/
def remove (id : List Char) (persistResult : Option (List Char)) (w : World) :
    Except VaultErr Unit × World :=
  if w.session.locked then (.error .vaultLocked, w)
  else
    let w1 := { w with session := { w.session with
      entries := w.session.entries.filter (fun e => e.id ≠ id) } }
    let w2 := persist persistResult w1
    (.ok (), { w2 with events := w2.events ++ [Event.entryDeleted id] })

/-- Grouping by a key, as performed by building a plain JS object keyed by
strings and taking `Object.values`: groups appear in order of the first
occurrence of their key, each group collecting its members in list order.
(JS reorders integer-like string keys ahead of the rest; the audit
theorems that depend on group order are stated up to permutation, and the
coarse bucket keys below can never be integer-like since they contain a
colon.) -/
def groupByKey {α κ : Type} [DecidableEq κ] (key : α → κ) (l : List α) :
    List (List α) :=
  (dedupFirst (l.map key)).map (fun k => l.filter (fun a => key a = k))

/-- The coarse bucket key of the reused-password detection:
`e.password.length + ':' + e.password.slice(0, 3)`. The string key is in
bijection with the (length, three-character-prefix) pair, which is used
directly. -/
def coarseKey (pw : List Char) : Nat × List Char := (pw.length, pw.take 3)

/-- Constant `NINETY_DAYS` from `audit` in `src/unnamed/part_002`
(`90 * 24 * 60 * 60 * 1000` milliseconds). -/
def NINETY_DAYS : Nat := 90 * 24 * 60 * 60 * 1000

/-- The weak-password filter of `audit`: entries with a truthy (non-empty)
password whose strength score is at most 1. -/
def auditWeak (entries : List Entry) : List Entry :=
  entries.filter (fun e =>
    if e.password = [] then false
    else decide (evaluateStrength e.password ≤ 1))

/-- The reused-password clusters of `audit`: entries with a non-empty
password are bucketed by the coarse key, buckets of size at least 2 are
partitioned by exact password equality, and every exact-equality group of
size at least 2 becomes one cluster. -/
def auditReused (entries : List Entry) : List (List Entry) :=
  let withPw := entries.filter (fun e => e.password ≠ [])
  let pwdGroups := groupByKey (fun e => coarseKey e.password) withPw
  pwdGroups.flatMap (fun group =>
    if group.length < 2 then []
    else (groupByKey (fun e => e.password) group).filter
      (fun eg => 2 ≤ eg.length))

/-- The stale-password filter of `audit`: non-empty password and
`now - (e.pwdChangedAt || e.createdAt) > NINETY_DAYS`. The JS subtraction
can go negative, in which case the comparison is false, matching the
truncated `Nat` subtraction. -/
def auditOld (now : Nat) (entries : List Entry) : List Entry :=
  entries.filter (fun e =>
    e.password ≠ [] &&
    decide (NINETY_DAYS <
      now - (if e.pwdChangedAt ≠ 0 then e.pwdChangedAt else e.createdAt)))

/-- The empty-password filter of `audit`. -/
def auditEmpty (entries : List Entry) : List Entry :=
  entries.filter (fun e => e.password = [])

/-- Quantity `issues = weak.length + reused.length * 2 + old.length * 0.5 +
empty.length`, in exact rational arithmetic. -/
def auditIssues (now : Nat) (entries : List Entry) : ℚ :=
  ((auditWeak entries).length : ℚ) + ((auditReused entries).length : ℚ) * 2 +
    ((auditOld now entries).length : ℚ) * (1 / 2) +
    ((auditEmpty entries).length : ℚ)

/-- JS `Math.round`, which rounds half towards positive infinity. -/
def jsRound (q : ℚ) : ℤ := ⌊q + 1 / 2⌋

/-- Quantity `score = Math.max(0, Math.round(100 - (issues / total) * 100))`. -/
def auditScore (now : Nat) (entries : List Entry) : ℤ :=
  max 0 (jsRound (100 - auditIssues now entries / (entries.length : ℚ) * 100))

/-- The grade ladder of `audit`. -/
def auditGrade (score : ℤ) : Char :=
  if 90 ≤ score then 'A'
  else if 70 ≤ score then 'B'
  else if 50 ≤ score then 'C'
  else if 30 ≤ score then 'D'
  else 'F'

/-- The report returned by `audit`. -/
structure AuditReport where
  total : Nat
  weak : List Entry
  reused : List (List Entry)
  old : List Entry
  empty : List Entry
  score : ℤ
  grade : Char
deriving DecidableEq

/-- The body of `audit` from `src/unnamed/part_002` after the lock check:
a perfect report for an empty vault, otherwise the four analyses and the
composite score. -/
def auditReport (now : Nat) (entries : List Entry) : AuditReport :=
  if entries.length = 0 then
    { total := 0, weak := [], reused := [], old := [], empty := [],
      score := 100, grade := 'A' }
  else
    let score := auditScore now entries
    { total := entries.length
      weak := auditWeak entries
      reused := auditReused entries
      old := auditOld now entries
      empty := auditEmpty entries
      score := score
      grade := auditGrade score }

/-- Function `audit` from `src/unnamed/part_002`: `assertUnlocked`, then the pure
report over the in-memory entries (`Date.now()` supplied as `now`). -/
def audit (now : Nat) (w : World) : Except VaultErr AuditReport :=
  if w.session.locked then .error .vaultLocked
  else .ok (auditReport now w.session.entries)

/-- Modelled from the spec: the reference partition the spec equates the
two-stage reused grouping with — "partition directly by exact password
value" over the entries, keeping groups of size at least 2. -/
def reusedBySpecDirect (entries : List Entry) : List (List Entry) :=
  (groupByKey (fun e => e.password) entries).filter (fun eg => 2 ≤ eg.length)

/-- The direct exact-password partition restricted to entries with a
non-empty password (the restriction the implementation actually applies). -/
def reusedDirectNonEmpty (entries : List Entry) : List (List Entry) :=
  reusedBySpecDirect (entries.filter (fun e => e.password ≠ []))

/-- A concrete instantiation of the platform primitives used to witness
the parameterized theorems: a marker AEAD that appends a 16-byte tag, a
constant 32-byte digest, and the code-point text codec. -/
def witnessPlatform : Platform where
  deriveKey := fun _ _ => []
  aeadEnc := fun _ _ pt => pt ++ List.replicate 16 0
  aeadDec := fun _ _ ct =>
    if 16 ≤ ct.length then some (ct.take (ct.length - 16)) else none
  digest := fun _ => List.replicate 32 0
  encodeText := fun s => s.map Char.toNat
  decodeText := fun bs => bs.map Char.ofNat

/-- A concrete unlocked world with a single weak-password entry, used by
witnesses. -/
def entryWeakPw : Entry :=
  { id := ['1'], name := ['n'], username := [], password := ['x'], url := [],
    notes := [], group := [], pwdChangedAt := 1, createdAt := 1,
    updatedAt := 1 }

/-- A concrete unlocked world holding `entryWeakPw`. -/
def worldOneWeak : World :=
  { session :=
      { masterKey := some ['m'], entries := [entryWeakPw], locked := false }
    store := { vaultBlob := none, verifierBlob := none }
    events := [] }

/-- An all-empty `save` input, used by witnesses. -/
def inputBlank : EntryInput :=
  { id := [], name := [], username := [], password := [], url := []
    notes := [], group := [] }

/-- A concrete locked world, used by witnesses. -/
def worldLocked : World :=
  { session := { masterKey := none, entries := [], locked := true }
    store := { vaultBlob := some ['b'], verifierBlob := some ['v'] }
    events := [] }

/-- An entry with an empty password, used by the C6 counterexample. -/
def entryEmptyPw : Entry :=
  { id := ['2'], name := ['n'], username := [], password := [], url := [],
    notes := [], group := [], pwdChangedAt := 1, createdAt := 1,
    updatedAt := 1 }

/-- A concrete unlocked world holding only `entryEmptyPw`. -/
def worldEmptyPw : World :=
  { session :=
      { masterKey := some ['m'], entries := [entryEmptyPw], locked := false }
    store := { vaultBlob := none, verifierBlob := none }
    events := [] }

/-- An entry whose `pwdChangedAt` is ancient but whose `createdAt` is
current, used by the C7 counterexample. -/
def entryStale : Entry :=
  { id := ['3'], name := ['n'], username := [], password := ['x'], url := [],
    notes := [], group := [], pwdChangedAt := 1,
    createdAt := NINETY_DAYS + 5, updatedAt := 1 }

/-- A concrete unlocked world holding only `entryStale`. -/
def worldStale : World :=
  { session :=
      { masterKey := some ['m'], entries := [entryStale], locked := false }
    store := { vaultBlob := none, verifierBlob := none }
    events := [] }

/-- A second entry with an empty password (distinct id), used by the C8
counterexample. -/
def entryEmptyPw2 : Entry :=
  { id := ['4'], name := ['n'], username := [], password := [], url := [],
    notes := [], group := [], pwdChangedAt := 1, createdAt := 1,
    updatedAt := 1 }

/-- Entry with password "x", id "5". -/
def entryX1 : Entry :=
  { id := ['5'], name := ['n'], username := [], password := ['x'], url := [],
    notes := [], group := [], pwdChangedAt := 1, createdAt := 1,
    updatedAt := 1 }

/-- Entry with password "x", id "6". -/
def entryX2 : Entry :=
  { id := ['6'], name := ['n'], username := [], password := ['x'], url := [],
    notes := [], group := [], pwdChangedAt := 1, createdAt := 1,
    updatedAt := 1 }

/-- Entry with password "y", id "7". -/
def entryY : Entry :=
  { id := ['7'], name := ['n'], username := [], password := ['y'], url := [],
    notes := [], group := [], pwdChangedAt := 1, createdAt := 1,
    updatedAt := 1 }

theorem charToSextet_sextetToChar : ∀ n < 64,
    charToSextet (sextetToChar n) = some n := by
  decide

theorem sextetToChar_ne_eq : ∀ n < 64, sextetToChar n ≠ '=' := by
  decide

theorem div_mul_add_lt (x y k : Nat) (hy : y < k) (hk : 0 < k) :
    (x * k + y) / k = x := by
  rw [Nat.mul_comm, Nat.mul_add_div hk, Nat.div_eq_of_lt hy, Nat.add_zero]

theorem mod_mul_add_lt (x y k : Nat) (hy : y < k) :
    (x * k + y) % k = y := by
  rw [Nat.mul_comm, Nat.mul_add_mod]
  exact Nat.mod_eq_of_lt hy

/-- Decoding is a left inverse of encoding on genuine byte lists. -/
theorem b64DecodeAux_encodeAux (bs : List Nat) (h : ∀ b ∈ bs, b < 256) :
    b64DecodeAux (b64EncodeAux bs) = some bs := by
  induction bs using b64EncodeAux.induct with
  | case1 => simp [b64EncodeAux, b64DecodeAux]
  | case2 b0 =>
      have hb0 : b0 < 256 := h b0 (by simp)
      have h0 : b0 / 4 < 64 := by omega
      have h1 : b0 % 4 * 16 < 64 := by omega
      have e0 : b0 / 4 * 4 + b0 % 4 * 16 / 16 = b0 := by
        rw [Nat.mul_div_cancel _ (by norm_num : (0:Nat) < 16)]
        omega
      simp [b64EncodeAux, b64DecodeAux, charToSextet_sextetToChar _ h0,
        charToSextet_sextetToChar _ h1, e0]
      omega
  | case3 b0 b1 =>
      have hb0 : b0 < 256 := h b0 (by simp)
      have hb1 : b1 < 256 := h b1 (by simp)
      have h0 : b0 / 4 < 64 := by omega
      have h1 : b0 % 4 * 16 + b1 / 16 < 64 := by omega
      have h2 : b1 % 16 * 4 < 64 := by omega
      have e0 : b0 / 4 * 4 + (b0 % 4 * 16 + b1 / 16) / 16 = b0 := by
        rw [div_mul_add_lt _ _ _ (by omega) (by norm_num)]
        omega
      have e1 : (b0 % 4 * 16 + b1 / 16) % 16 * 16 + b1 % 16 * 4 / 4 = b1 := by
        rw [mod_mul_add_lt _ _ _ (by omega),
          Nat.mul_div_cancel _ (by norm_num : (0:Nat) < 4)]
        omega
      simp [b64EncodeAux, b64DecodeAux, sextetToChar_ne_eq _ h2,
        charToSextet_sextetToChar _ h0, charToSextet_sextetToChar _ h1,
        charToSextet_sextetToChar _ h2, e0, e1]
      rw [mod_mul_add_lt _ _ _ (by omega)]
      omega
  | case4 b0 b1 b2 rest ih =>
      have hb0 : b0 < 256 := h b0 (by simp)
      have hb1 : b1 < 256 := h b1 (by simp)
      have hb2 : b2 < 256 := h b2 (by simp)
      have hrest : ∀ b ∈ rest, b < 256 := fun b hb => h b (by simp [hb])
      have h0 : b0 / 4 < 64 := by omega
      have h1 : b0 % 4 * 16 + b1 / 16 < 64 := by omega
      have h2 : b1 % 16 * 4 + b2 / 64 < 64 := by omega
      have h3 : b2 % 64 < 64 := by omega
      have e0 : b0 / 4 * 4 + (b0 % 4 * 16 + b1 / 16) / 16 = b0 := by
        rw [div_mul_add_lt _ _ _ (by omega) (by norm_num)]
        omega
      have e1 : (b0 % 4 * 16 + b1 / 16) % 16 * 16 +
          (b1 % 16 * 4 + b2 / 64) / 4 = b1 := by
        rw [mod_mul_add_lt _ _ _ (by omega),
          div_mul_add_lt _ _ _ (by omega) (by norm_num)]
        omega
      have e2 : (b1 % 16 * 4 + b2 / 64) % 4 * 64 + b2 % 64 = b2 := by
        rw [mod_mul_add_lt _ _ _ (by omega)]
        omega
      simp [b64EncodeAux, b64DecodeAux, sextetToChar_ne_eq _ h3,
        charToSextet_sextetToChar _ h0, charToSextet_sextetToChar _ h1,
        charToSextet_sextetToChar _ h2, charToSextet_sextetToChar _ h3,
        ih hrest, e0, e1, e2]

/-- Base64 round-trip at the level of the two source helpers. -/
theorem base64ToUint8_uint8ToBase64 (bs : List Nat) (h : ∀ b ∈ bs, b < 256) :
    base64ToUint8 (uint8ToBase64 bs) = some bs :=
  b64DecodeAux_encodeAux bs h

theorem b64EncodeAux_ne_nil {bs : List Nat} (h : bs ≠ []) :
    b64EncodeAux bs ≠ [] := by
  match bs with
  | [] => exact absurd rfl h
  | [b0] => simp [b64EncodeAux]
  | [b0, b1] => simp [b64EncodeAux]
  | b0 :: b1 :: b2 :: rest => simp [b64EncodeAux]

/-- C1 (round-trip): for every non-empty password and every plaintext
string, including the empty string, decrypting the blob produced by
`encrypt` with the same password returns exactly the plaintext, assuming
only the platform AEAD contract (decryption inverts encryption, the
ciphertext is plaintext plus a 16-byte tag, ciphertexts are bytes), the
text-codec round-trip, and salt/iv of the generated lengths. -/
theorem encrypt_decrypt_roundtrip (P : Platform) (salt iv : List Nat)
    (m password : List Char)
    (hAead : ∀ k n pt, P.aeadDec k n (P.aeadEnc k n pt) = some pt)
    (hTagLen : ∀ k n pt, (P.aeadEnc k n pt).length = pt.length + 16)
    (hCipherBytes : ∀ k n pt, (∀ b ∈ pt, b < 256) →
      ∀ b ∈ P.aeadEnc k n pt, b < 256)
    (hText : ∀ s, P.decodeText (P.encodeText s) = s)
    (hMsgBytes : ∀ b ∈ P.encodeText m, b < 256)
    (hSaltLen : salt.length = SALT_LENGTH) (hSaltBytes : ∀ b ∈ salt, b < 256)
    (hIvLen : iv.length = IV_LENGTH) (hIvBytes : ∀ b ∈ iv, b < 256)
    (hpw : password ≠ []) :
    (encrypt P salt iv m password).bind (fun blob => decrypt P blob password) =
      .ok m := by
  have hsaltne : salt ≠ [] := by
    intro hc
    rw [hc] at hSaltLen
    simp [SALT_LENGTH] at hSaltLen
  set key := P.deriveKey password salt with hkey
  set ct := P.aeadEnc key iv (P.encodeText m) with hct
  have hpacked : ∀ b ∈ salt ++ iv ++ ct, b < 256 := by
    intro b hb
    rcases List.mem_append.1 hb with hb' | hb'
    · rcases List.mem_append.1 hb' with hb'' | hb''
      · exact hSaltBytes b hb''
      · exact hIvBytes b hb''
    · exact hCipherBytes key iv _ hMsgBytes b hb'
  have hblobne : uint8ToBase64 (salt ++ iv ++ ct) ≠ [] :=
    b64EncodeAux_ne_nil (by simp [hsaltne])
  have hdecode : base64ToUint8 (uint8ToBase64 (salt ++ iv ++ ct)) =
      some (salt ++ iv ++ ct) := base64ToUint8_uint8ToBase64 _ hpacked
  have hctlen : ct.length = (P.encodeText m).length + 16 := hTagLen _ _ _
  have hlen : ¬ ((salt ++ iv ++ ct).length < SALT_LENGTH + IV_LENGTH + 1) := by
    simp only [List.length_append, hSaltLen, hIvLen, hctlen, SALT_LENGTH,
      IV_LENGTH]
    omega
  have htake : (salt ++ iv ++ ct).take SALT_LENGTH = salt := by
    rw [List.append_assoc]
    exact List.take_left' hSaltLen
  have hdrop : (salt ++ iv ++ ct).drop SALT_LENGTH = iv ++ ct := by
    rw [List.append_assoc]
    exact List.drop_left' hSaltLen
  have htake2 : ((salt ++ iv ++ ct).drop SALT_LENGTH).take IV_LENGTH = iv := by
    rw [hdrop]
    exact List.take_left' hIvLen
  have hdrop2 : (salt ++ iv ++ ct).drop (SALT_LENGTH + IV_LENGTH) = ct := by
    have : (salt ++ iv).length = SALT_LENGTH + IV_LENGTH := by
      rw [List.length_append, hSaltLen, hIvLen]
    exact List.drop_left' this
  simp only [encrypt, if_neg hpw, Except.bind]
  rw [decrypt, if_neg hblobne, if_neg hpw]
  rw [hdecode]
  simp only [if_neg hlen, htake, htake2, hdrop2, ← hkey, ← hct, hAead, hText]

/-- Witness for C1 at a concrete platform, salt, iv, message and
password. -/
theorem encrypt_decrypt_roundtrip_witness :
    (encrypt witnessPlatform (List.replicate 16 0) (List.replicate 12 0)
        ['h', 'i'] ['p']).bind
      (fun blob => decrypt witnessPlatform blob ['p']) = .ok ['h', 'i'] := by
  apply encrypt_decrypt_roundtrip
  · intro k n pt
    simp [witnessPlatform]
  · intro k n pt
    simp [witnessPlatform]
  · intro k n pt hpt b hb
    simp only [witnessPlatform] at hb
    rcases List.mem_append.1 hb with hb' | hb'
    · exact hpt b hb'
    · have := List.eq_of_mem_replicate hb'
      omega
  · intro s
    simp only [witnessPlatform, List.map_map]
    have : (Char.ofNat ∘ Char.toNat) = id := by
      funext c
      simp [Char.ofNat_toNat]
    rw [this, List.map_id]
  · intro b hb
    simp only [witnessPlatform, List.mem_map] at hb
    obtain ⟨c, hc, rfl⟩ := hb
    simp only [List.mem_cons, List.not_mem_nil, or_false] at hc
    rcases hc with rfl | rfl <;> decide
  · simp [SALT_LENGTH]
  · intro b hb
    have := List.eq_of_mem_replicate hb
    omega
  · simp [IV_LENGTH]
  · intro b hb
    have := List.eq_of_mem_replicate hb
    omega
  · simp

theorem jsIsLower_not_digit {c : Char} (h : jsIsLower c = true) :
    jsIsDigit c = false := by
  simp only [jsIsLower, Bool.and_eq_true, decide_eq_true_eq] at h
  simp only [jsIsDigit, Bool.and_eq_false_iff, decide_eq_false_iff_not]
  omega

theorem jsIsDigit_not_alpha {c : Char} (h : jsIsDigit c = true) :
    jsIsAlpha c = false := by
  simp only [jsIsDigit, Bool.and_eq_true, decide_eq_true_eq] at h
  simp only [jsIsAlpha, jsIsLower, jsIsUpper, Bool.or_eq_false_iff,
    Bool.and_eq_false_iff, decide_eq_false_iff_not]
  omega

/-- C9 (strength scoring): the empty password scores 0; `"aaaaaa"`
scores at most 1; every 20-character password containing a lowercase
letter, an uppercase letter, a digit and a symbol scores exactly 4; any
password shorter than 6 characters is capped at 1; and every score lies
in `[0, 4]` (the lower bound holds by the `Nat` codomain). -/
theorem evaluateStrength_facts :
    evaluateStrength [] = 0 ∧
    evaluateStrength ['a','a','a','a','a','a'] ≤ 1 ∧
    (∀ pw : List Char, pw.length = 20 →
      (∃ c ∈ pw, jsIsLower c = true) → (∃ c ∈ pw, jsIsUpper c = true) →
      (∃ c ∈ pw, jsIsDigit c = true) →
      (∃ c ∈ pw, (!(jsIsAlpha c || jsIsDigit c)) = true) →
      evaluateStrength pw = 4) ∧
    (∀ pw : List Char, pw.length < 6 → evaluateStrength pw ≤ 1) ∧
    (∀ pw : List Char, evaluateStrength pw ≤ 4) := by
  refine ⟨rfl, by decide, ?_, ?_, ?_⟩
  · intro pw h20 hl hu hd hs
    obtain ⟨cl, hclm, hcl⟩ := hl
    obtain ⟨cd, hcdm, hcd⟩ := hd
    have hne : pw ≠ [] := by
      intro hc
      rw [hc] at h20
      simp at h20
    have hAnyL : pw.any jsIsLower = true := List.any_eq_true.2 ⟨cl, hclm, hcl⟩
    have hAnyU : pw.any jsIsUpper = true := List.any_eq_true.2 hu
    have hAnyD : pw.any jsIsDigit = true := List.any_eq_true.2 ⟨cd, hcdm, hcd⟩
    have hAnyS : pw.any (fun c => !(jsIsAlpha c || jsIsDigit c)) = true :=
      List.any_eq_true.2 hs
    have hAllD : pw.all jsIsDigit = false := by
      apply Bool.eq_false_iff.2
      intro hall
      have := (List.all_eq_true.1 hall) cl hclm
      rw [jsIsLower_not_digit hcl] at this
      exact Bool.false_ne_true this
    have hAllA : pw.all jsIsAlpha = false := by
      apply Bool.eq_false_iff.2
      intro hall
      have := (List.all_eq_true.1 hall) cd hcdm
      rw [jsIsDigit_not_alpha hcd] at this
      exact Bool.false_ne_true this
    simp only [evaluateStrength, if_neg hne, h20, hAnyL, hAnyU, hAnyD, hAnyS,
      hAllD, hAllA]
    norm_num
    split <;> split <;> decide
  · intro pw h6
    by_cases hne : pw = []
    · simp [hne, evaluateStrength]
    · simp only [evaluateStrength, if_neg hne, if_pos h6]
      omega
  · intro pw
    by_cases hne : pw = []
    · simp [hne, evaluateStrength]
    · simp only [evaluateStrength, if_neg hne]
      split <;> omega

/-- Witness for the universally quantified parts of C9 at concrete
passwords. -/
theorem evaluateStrength_facts_witness :
    evaluateStrength
      ['a','B','3','!','a','B','3','!','a','B','3','!','a','B','3','!',
       'a','B','3','!'] = 4 ∧
    evaluateStrength ['a','b'] ≤ 1 :=
  ⟨evaluateStrength_facts.2.2.1 _ (by decide)
      ⟨'a', by decide, by decide⟩ ⟨'B', by decide, by decide⟩
      ⟨'3', by decide, by decide⟩ ⟨'!', by decide, by decide⟩,
    evaluateStrength_facts.2.2.2.1 _ (by decide)⟩

theorem timingSafeEqual_of_length_ne {a b : List Nat}
    (h : a.length ≠ b.length) : timingSafeEqual a b = false := by
  simp [timingSafeEqual, h]

/-- C10 (verifier checking is total): `checkVerifier` returns a
boolean on every password/verifier pair; it returns `false` whenever the
verifier is not valid base64 (the `atob` throw is caught), and `false`
whenever the decoded verifier does not consist of exactly a 32-byte salt
followed by a 32-byte digest — in particular for any verifier shorter
than the salt. -/
theorem checkVerifier_total :
    (∀ (P : Platform) (password verifier : List Char),
      checkVerifier P password verifier = true ∨
      checkVerifier P password verifier = false) ∧
    (∀ (P : Platform) (password verifier : List Char),
      base64ToUint8 verifier = none →
      checkVerifier P password verifier = false) ∧
    (∀ (P : Platform) (password verifier : List Char) (data : List Nat),
      (∀ x, (P.digest x).length = 32) →
      base64ToUint8 verifier = some data → data.length ≠ 64 →
      checkVerifier P password verifier = false) := by
  refine ⟨?_, ?_, ?_⟩
  · intro P password verifier
    cases checkVerifier P password verifier
    · right
      rfl
    · left
      rfl
  · intro P password verifier hdec
    simp [checkVerifier, hdec]
  · intro P password verifier data hdigest hdec hlen
    simp only [checkVerifier, hdec]
    apply timingSafeEqual_of_length_ne
    rw [List.length_drop, hdigest]
    omega

/-- Witness for C10: a non-base64 verifier and a too-short verifier are
both rejected without an exception. -/
theorem checkVerifier_total_witness :
    checkVerifier witnessPlatform ['p'] ['!'] = false ∧
    checkVerifier witnessPlatform ['p'] ['A', 'A'] = false :=
  ⟨checkVerifier_total.2.1 witnessPlatform ['p'] ['!'] (by decide),
    checkVerifier_total.2.2 witnessPlatform ['p'] ['A', 'A'] [0]
      (fun x => by simp [witnessPlatform]) (by decide) (by decide)⟩

/-- C2 (audit score): for every unlocked vault, `audit` succeeds and
returns a report whose `total` is the entry count; with zero entries the
report is perfect (all lists empty, score 100, grade A); otherwise the
score is `max 0 (round (100 - 100 * issues / total))` with
`issues = |weak| + 2 * |reused clusters| + 1/2 * |old| + |empty|`, and the
grade follows the ≥90 A / ≥70 B / ≥50 C / ≥30 D / else F ladder. -/
theorem audit_score_grade (now : Nat) (w : World)
    (h : w.session.locked = false) :
    ∃ r, audit now w = .ok r ∧
      r.total = w.session.entries.length ∧
      (w.session.entries.length = 0 →
        r = { total := 0, weak := [], reused := [], old := [], empty := [],
              score := 100, grade := 'A' }) ∧
      (w.session.entries.length ≠ 0 →
        r.weak = auditWeak w.session.entries ∧
        r.reused = auditReused w.session.entries ∧
        r.old = auditOld now w.session.entries ∧
        r.empty = auditEmpty w.session.entries ∧
        r.score = max 0 (jsRound (100 -
          100 * (((r.weak.length : ℚ) + 2 * (r.reused.length : ℚ) +
            (1 / 2) * (r.old.length : ℚ) + (r.empty.length : ℚ)) /
              (r.total : ℚ)))) ∧
        r.grade = (if 90 ≤ r.score then 'A' else if 70 ≤ r.score then 'B'
          else if 50 ≤ r.score then 'C' else if 30 ≤ r.score then 'D'
          else 'F')) := by
  refine ⟨auditReport now w.session.entries, by simp [audit, h], ?_, ?_, ?_⟩
  · by_cases h0 : w.session.entries.length = 0
    · simp [auditReport, h0]
    · simp [auditReport, h0]
  · intro h0
    simp [auditReport, h0]
  · intro h0
    have hw : (auditReport now w.session.entries).weak =
        auditWeak w.session.entries := by
      simp [auditReport, h0]
    have hr : (auditReport now w.session.entries).reused =
        auditReused w.session.entries := by
      simp [auditReport, h0]
    have ho : (auditReport now w.session.entries).old =
        auditOld now w.session.entries := by
      simp [auditReport, h0]
    have he : (auditReport now w.session.entries).empty =
        auditEmpty w.session.entries := by
      simp [auditReport, h0]
    have ht : (auditReport now w.session.entries).total =
        w.session.entries.length := by
      simp [auditReport, h0]
    have hsc : (auditReport now w.session.entries).score =
        auditScore now w.session.entries := by
      simp [auditReport, h0]
    have hg : (auditReport now w.session.entries).grade =
        auditGrade (auditScore now w.session.entries) := by
      simp [auditReport, h0]
    refine ⟨hw, hr, ho, he, ?_, ?_⟩
    swap
    · rw [hg, hsc]
      rfl
    have hq : (100 : ℚ) -
        auditIssues now w.session.entries / (w.session.entries.length : ℚ) *
          100 =
        100 - 100 * ((((auditWeak w.session.entries).length : ℚ) +
          2 * ((auditReused w.session.entries).length : ℚ) +
          (1 / 2) * ((auditOld now w.session.entries).length : ℚ) +
          ((auditEmpty w.session.entries).length : ℚ)) /
            (w.session.entries.length : ℚ)) := by
      unfold auditIssues
      ring
    rw [hw, hr, ho, he, ht, hsc, auditScore, hq]

/-- Witness for C2 at a concrete unlocked one-entry vault. -/
theorem audit_score_grade_witness :
    ∃ r, audit 5 worldOneWeak = .ok r ∧ r.total = 1 := by
  obtain ⟨r, h1, h2, h3, h4⟩ := audit_score_grade 5 worldOneWeak rfl
  exact ⟨r, h1, h2⟩

/-- C3 (locked operations): while the session is locked, `getAll`,
`getById`, `save`, `remove`, `search`, `getGroups` and `audit` all fail
with the vault-locked error and perform no side effect — the mutating
operations return the world unchanged (same session, same store, no new
event), and the read operations touch no state by construction. -/
theorem locked_ops_fail (w : World) (h : w.session.locked = true)
    (id query uuid : List Char) (now : Nat)
    (persistResult : Option (List Char)) (data : EntryInput) :
    getAll w = .error .vaultLocked ∧
    getById id w = .error .vaultLocked ∧
    search query w = .error .vaultLocked ∧
    getGroups w = .error .vaultLocked ∧
    audit now w = .error .vaultLocked ∧
    save now uuid persistResult data w = (.error .vaultLocked, w) ∧
    remove id persistResult w = (.error .vaultLocked, w) := by
  refine ⟨?_, ?_, ?_, ?_, ?_, ?_, ?_⟩ <;>
    simp [getAll, getById, search, getGroups, audit, save, remove, h]

/-- Witness for C3 at a concrete locked world. -/
theorem locked_ops_fail_witness :
    getAll worldLocked = .error .vaultLocked ∧
    save 1 ['u'] none inputBlank worldLocked =
      (.error .vaultLocked, worldLocked) := by
  obtain ⟨h1, _, _, _, _, h6, _⟩ :=
    locked_ops_fail worldLocked rfl [] [] ['u'] 1 none inputBlank
  exact ⟨h1, h6⟩

theorem set_findIdx_eq_map_replace (l : List Entry) (d : List Char) (v : Entry)
    (hnd : (l.map (fun e => e.id)).Nodup) :
    l.set (l.findIdx (fun e => e.id = d)) v =
      l.map (fun e => if e.id = d then v else e) := by
  induction l with
  | nil => rfl
  | cons a t ih =>
      simp only [List.map_cons, List.nodup_cons, List.mem_map] at hnd
      by_cases ha : a.id = d
      · have hpt : ∀ e ∈ t, e.id ≠ d := by
          intro e he hc
          exact hnd.1 ⟨e, he, by rw [hc, ha]⟩
        have htmap : t.map (fun e => if e.id = d then v else e) = t := by
          rw [List.map_congr_left (g := id) ?_, List.map_id]
          intro e he
          simp [hpt e he]
        simp [List.findIdx_cons, ha, htmap]
      · simp only [List.findIdx_cons, decide_eq_false ha, cond_false,
          List.set_cons_succ, List.map_cons, if_neg ha, ih hnd.2]

theorem persist_session (pr : Option (List Char)) (w : World) :
    (persist pr w).session = w.session := by
  unfold persist
  cases w.session.masterKey <;> cases pr <;> rfl

/-- C4 (save semantics): for every unlocked session, `save` succeeds
and returns the stored entry: a fresh identifier (`uuid`) is assigned
exactly when the input has none; inputs with no matching existing entry
are prepended with both timestamps set to now; when an existing entry
matches, `createdAt` is preserved (when non-zero), `pwdChangedAt` is set
to now exactly when the password differs byte-for-byte from the stored
one (when the preserved stamp is non-zero), and the entry replaces the
existing one in place; `updatedAt` is always now and the password is
stored byte-for-byte. -/
theorem save_semantics (w : World) (data : EntryInput) (now : Nat)
    (uuid : List Char) (persistResult : Option (List Char))
    (h : w.session.locked = false)
    (hnd : (w.session.entries.map (fun e => e.id)).Nodup) :
    ∃ entry w', save now uuid persistResult data w = (.ok entry, w') ∧
      entry.updatedAt = now ∧
      entry.password = data.password ∧
      entry.id = (if data.id = [] then uuid else data.id) ∧
      (data.id = [] →
        w'.session.entries = entry :: w.session.entries ∧
        entry.createdAt = now ∧ entry.pwdChangedAt = now) ∧
      (data.id ≠ [] →
        (w.session.entries.find? (fun e => e.id = data.id) = none →
          w'.session.entries = entry :: w.session.entries ∧
          entry.createdAt = now ∧ entry.pwdChangedAt = now) ∧
        (∀ ex, w.session.entries.find? (fun e => e.id = data.id) = some ex →
          (ex.createdAt ≠ 0 → entry.createdAt = ex.createdAt) ∧
          (ex.pwdChangedAt ≠ 0 →
            entry.pwdChangedAt =
              (if data.password = ex.password then ex.pwdChangedAt else now)) ∧
          w'.session.entries =
            w.session.entries.map
              (fun e => if e.id = data.id then entry else e))) := by
  unfold save
  rw [h]
  simp only [Bool.false_eq_true, if_false]
  by_cases hid : data.id = []
  · simp only [hid, ne_eq, not_true_eq_false, if_false]
    refine ⟨_, _, rfl, rfl, rfl, by simp, ?_, ?_⟩
    · intro _
      refine ⟨?_, rfl, rfl⟩
      cases w.session.masterKey <;> cases persistResult <;> rfl
    · intro hc
      exact hc.elim
  · rcases hfind : w.session.entries.find? (fun e => e.id = data.id)
      with _ | ex
    · simp only [hid, ne_eq, not_false_eq_true, if_true, hfind]
      refine ⟨_, _, rfl, rfl, rfl, by simp [hid], ?_, ?_⟩
      · intro hc
        exact hc.elim
      · intro _
        refine ⟨?_, ?_⟩
        · intro _
          refine ⟨?_, rfl, rfl⟩
          cases w.session.masterKey <;> cases persistResult <;> rfl
        · intro ex' hex'
          cases hex'
    · simp only [hid, ne_eq, not_false_eq_true, if_true, hfind]
      refine ⟨_, _, rfl, rfl, rfl, by simp [hid], ?_, ?_⟩
      · intro hc
        exact hc.elim
      · intro _
        refine ⟨?_, ?_⟩
        · intro hc
          cases hc
        · intro ex' hex'
          cases hex'
          refine ⟨?_, ?_, ?_⟩
          · intro hc
            simp [hc]
          · intro hp
            by_cases hpw : data.password = ex.password
            · have : ¬ (ex.password ≠ data.password) := by
                simp [hpw.symm]
              simp [this, hp, hpw]
            · have : ex.password ≠ data.password := fun hc => hpw hc.symm
              simp [this, hpw]
          · cases w.session.masterKey <;> cases persistResult <;>
              exact set_findIdx_eq_map_replace w.session.entries data.id _ hnd

/-- Witness for C4 at a concrete unlocked world and input. -/
theorem save_semantics_witness :
    ∃ entry w', save 7 ['u'] none inputBlank worldOneWeak =
      (.ok entry, w') ∧ entry.updatedAt = 7 ∧ entry.id = ['u'] := by
  obtain ⟨entry, w', h1, h2, _, h4, _⟩ :=
    save_semantics worldOneWeak inputBlank 7 ['u'] none rfl (by decide)
  exact ⟨entry, w', h1, h2, by simpa [inputBlank] using h4⟩

/-- C5 counterexample: with a failing persistence write (`none`), a
`save` on a concrete unlocked one-entry vault emits the `ERROR` event and
does not throw, but the in-memory entry set is NOT left unchanged — the
new entry stays in memory even though the store was not updated,
contradicting the claim that the in-memory session state is unchanged. -/
theorem save_persist_failure_counterexample :
    (save 9 ['u'] none inputBlank worldOneWeak).2.session.entries ≠
      worldOneWeak.session.entries ∧
    Event.errorEvent ∈ (save 9 ['u'] none inputBlank worldOneWeak).2.events ∧
    (save 9 ['u'] none inputBlank worldOneWeak).2.store = worldOneWeak.store ∧
    ∃ e, (save 9 ['u'] none inputBlank worldOneWeak).1 = .ok e := by
  exact ⟨by decide, by decide, by decide, ⟨_, rfl⟩⟩

/-- C5 amended: when the persistence write fails during `save` or
`remove` on an unlocked session with a resident master key, the operation
still returns successfully (no crash), emits the `ERROR` event, and
leaves the store unchanged, but the in-memory session retains the
mutation — it is exactly the session a successful write would have
produced, not the pre-operation session. -/
theorem persist_failure_behavior (w : World) (k : List Char)
    (data : EntryInput) (now : Nat) (uuid id : List Char)
    (h : w.session.locked = false) (hmk : w.session.masterKey = some k) :
    (∃ e, (save now uuid none data w).1 = .ok e) ∧
    (save now uuid none data w).2.store = w.store ∧
    Event.errorEvent ∈ (save now uuid none data w).2.events ∧
    (∀ blob, (save now uuid none data w).2.session =
      (save now uuid (some blob) data w).2.session) ∧
    (remove id none w).1 = .ok () ∧
    (remove id none w).2.store = w.store ∧
    Event.errorEvent ∈ (remove id none w).2.events ∧
    (∀ blob, (remove id none w).2.session =
      (remove id (some blob) w).2.session) := by
  unfold save remove persist
  rw [h]
  simp only [Bool.false_eq_true, if_false, hmk]
  exact ⟨⟨_, rfl⟩, by simp, by simp, by simp, by simp, by simp, by simp,
    by simp⟩

/-- Witness for the amended C5 at a concrete world. -/
theorem persist_failure_behavior_witness :
    Event.errorEvent ∈ (save 9 ['u'] none inputBlank worldOneWeak).2.events ∧
    Event.errorEvent ∈ (remove ['1'] none worldOneWeak).2.events := by
  obtain ⟨_, _, h3, _, _, _, h7, _⟩ :=
    persist_failure_behavior worldOneWeak ['m'] inputBlank 9 ['u'] ['1']
      rfl rfl
  exact ⟨h3, h7⟩

/-- C6 counterexample: an entry with an empty password has strength
score 0 ≤ 1 yet is excluded from the weak list (the implementation skips
falsy passwords before scoring), so the weak list is not exactly the
entries whose score is ≤ 1. -/
theorem audit_weak_counterexample :
    audit 0 worldEmptyPw = .ok (auditReport 0 [entryEmptyPw]) ∧
    (auditReport 0 [entryEmptyPw]).weak = [] ∧
    entryEmptyPw ∈ worldEmptyPw.session.entries ∧
    evaluateStrength entryEmptyPw.password ≤ 1 :=
  ⟨rfl, by decide, by decide, by decide⟩

/-- C6 amended: the weak list contains exactly the entries with a
NON-EMPTY password whose strength score is at most 1. -/
theorem audit_weak_characterization (now : Nat) (w : World) (r : AuditReport)
    (h : w.session.locked = false) (hr : audit now w = .ok r) (e : Entry) :
    e ∈ r.weak ↔
      e ∈ w.session.entries ∧ e.password ≠ [] ∧
        evaluateStrength e.password ≤ 1 := by
  have hrep : r = auditReport now w.session.entries := by
    simp only [audit, h, Bool.false_eq_true, if_false, Except.ok.injEq] at hr
    exact hr.symm
  subst hrep
  by_cases h0 : w.session.entries.length = 0
  · have he : w.session.entries = [] := List.length_eq_zero.1 h0
    simp [auditReport, h0, he]
  · have hw : (auditReport now w.session.entries).weak =
        auditWeak w.session.entries := by
      simp [auditReport, h0]
    rw [hw, auditWeak, List.mem_filter]
    constructor
    · rintro ⟨hmem, hp⟩
      by_cases hpw : e.password = []
      · rw [if_pos hpw] at hp
        cases hp
      · rw [if_neg hpw, decide_eq_true_eq] at hp
        exact ⟨hmem, hpw, hp⟩
    · rintro ⟨hmem, hpw, hs⟩
      refine ⟨hmem, ?_⟩
      rw [if_neg hpw, decide_eq_true_eq]
      exact hs

/-- Witness for the amended C6 at a concrete vault: the weak-password
entry is reported. -/
theorem audit_weak_characterization_witness :
    entryWeakPw ∈ (auditReport 5 [entryWeakPw]).weak := by
  have h := audit_weak_characterization 5 worldOneWeak
    (auditReport 5 [entryWeakPw]) rfl rfl entryWeakPw
  exact h.2 (by decide)

/-- C7 counterexample: the implementation uses
`pwdChangedAt || createdAt` (a fallback), not `max(pwdChangedAt,
createdAt)`. For an entry whose password stamp is ancient but whose
creation stamp is "now", `now - max(pwdChangedAt, createdAt) = 0` is not
above the 90-day threshold, yet the audit reports the entry as old. -/
theorem audit_old_counterexample :
    audit (NINETY_DAYS + 5) worldStale =
      .ok (auditReport (NINETY_DAYS + 5) [entryStale]) ∧
    (auditReport (NINETY_DAYS + 5) [entryStale]).old = [entryStale] ∧
    entryStale.password ≠ [] ∧
    ¬ (NINETY_DAYS <
      (NINETY_DAYS + 5) - max entryStale.pwdChangedAt entryStale.createdAt) :=
  ⟨rfl, by decide, by decide, by decide⟩

/-- C7 amended: the old list contains exactly the entries with a
non-empty password for which `now` minus `pwdChangedAt` — falling back to
`createdAt` only when `pwdChangedAt` is zero/absent — exceeds 90 days. -/
theorem audit_old_characterization (now : Nat) (w : World) (r : AuditReport)
    (h : w.session.locked = false) (hr : audit now w = .ok r) (e : Entry) :
    e ∈ r.old ↔
      e ∈ w.session.entries ∧ e.password ≠ [] ∧
        NINETY_DAYS <
          now - (if e.pwdChangedAt ≠ 0 then e.pwdChangedAt else e.createdAt) := by
  have hrep : r = auditReport now w.session.entries := by
    simp only [audit, h, Bool.false_eq_true, if_false, Except.ok.injEq] at hr
    exact hr.symm
  subst hrep
  by_cases h0 : w.session.entries.length = 0
  · have he : w.session.entries = [] := List.length_eq_zero.1 h0
    simp [auditReport, h0, he]
  · have ho : (auditReport now w.session.entries).old =
        auditOld now w.session.entries := by
      simp [auditReport, h0]
    rw [ho, auditOld, List.mem_filter]
    simp only [Bool.and_eq_true, decide_eq_true_eq, ne_eq, and_assoc]

/-- Witness for the amended C7 at a concrete vault: the stale entry is
reported because its fallback stamp is ancient. -/
theorem audit_old_characterization_witness :
    entryStale ∈ (auditReport (NINETY_DAYS + 5) [entryStale]).old := by
  have h := audit_old_characterization (NINETY_DAYS + 5) worldStale
    (auditReport (NINETY_DAYS + 5) [entryStale]) rfl rfl entryStale
  exact h.2 (by decide)

theorem mem_dedupFirst {κ : Type} [DecidableEq κ] {a : κ} :
    ∀ {l : List κ}, a ∈ dedupFirst l ↔ a ∈ l := by
  intro l
  induction l with
  | nil => simp [dedupFirst]
  | cons k t ih =>
      rw [dedupFirst]
      by_cases hak : a = k
      · simp [hak]
      · simp only [List.mem_cons, List.mem_filter, decide_eq_true_eq, ih,
          hak, false_or, ne_eq, not_false_eq_true, and_true]

theorem dedupFirst_nodup {κ : Type} [DecidableEq κ] :
    ∀ (l : List κ), (dedupFirst l).Nodup := by
  intro l
  induction l with
  | nil => simp [dedupFirst]
  | cons k t ih =>
      rw [dedupFirst]
      refine List.nodup_cons.2 ⟨?_, ih.filter _⟩
      intro hk
      have := (List.mem_filter.1 hk).2
      simp at this

theorem dedupFirst_filter {κ : Type} [DecidableEq κ] (p : κ → Bool) :
    ∀ (l : List κ), dedupFirst (l.filter p) = (dedupFirst l).filter p := by
  intro l
  induction l with
  | nil => simp [dedupFirst]
  | cons k t ih =>
      by_cases hp : p k
      · rw [List.filter_cons_of_pos hp, dedupFirst, dedupFirst,
          List.filter_cons_of_pos hp, ih, List.filter_filter,
          List.filter_filter]
        congr 1
        apply List.filter_congr
        intro a _
        rw [Bool.and_comm]
      · rw [List.filter_cons_of_neg hp, dedupFirst,
          List.filter_cons_of_neg hp, ih, List.filter_filter]
        apply List.filter_congr
        intro a _
        by_cases hak : a = k
        · subst hak
          simp [hp]
        · simp [hak]

theorem map_filter_comp {α β : Type} (f : α → β) (q : β → Bool)
    (l : List α) :
    (l.filter (fun a => q (f a))).map f = (l.map f).filter q := by
  induction l with
  | nil => rfl
  | cons a t ih =>
      by_cases hq : q (f a)
      · simp [hq, ih]
      · simp [hq, ih]

theorem count_flatMap_filter {α κ : Type} [DecidableEq α] [DecidableEq κ]
    (g : α → κ) (C : List κ) (L : List α) (a : α) :
    (C.flatMap fun c => L.filter (fun x => g x = c)).count a =
      C.count (g a) * L.count a := by
  induction C with
  | nil => simp
  | cons c C ih =>
      rw [List.flatMap_cons, List.count_append, ih]
      by_cases hc : g a = c
      · rw [List.count_filter (by simp [hc])]
        subst hc
        simp only [List.count_cons, beq_self_eq_true, if_true]
        ring
      · have hz : List.count a (L.filter (fun x => decide (g x = c))) = 0 := by
          apply List.count_eq_zero.2
          intro hmem
          have := (List.mem_filter.1 hmem).2
          simp only [decide_eq_true_eq] at this
          exact hc this
        rw [hz]
        have hcc : ¬ (c = g a) := fun h => hc h.symm
        simp only [List.count_cons, beq_iff_eq, if_neg hcc]
        ring

theorem flatMap_filter_perm {α κ : Type} [DecidableEq α] [DecidableEq κ]
    (g : α → κ) (C : List κ) (hC : C.Nodup) (L : List α)
    (hmem : ∀ a ∈ L, g a ∈ C) :
    (C.flatMap fun c => L.filter (fun x => g x = c)).Perm L := by
  rw [List.perm_iff_count]
  intro a
  rw [count_flatMap_filter]
  by_cases ha : a ∈ L
  · rw [List.count_eq_one_of_mem hC (hmem a ha), one_mul]
  · rw [List.count_eq_zero.2 ha, Nat.mul_zero]

theorem exact_clusters_short (g : List Entry) (hg : g.length < 2) :
    (groupByKey (fun e => e.password) g).filter
      (fun eg => 2 ≤ eg.length) = [] := by
  apply List.filter_eq_nil_iff.2
  intro x hx
  simp only [groupByKey, List.mem_map] at hx
  obtain ⟨k, _, rfl⟩ := hx
  simp only [decide_eq_true_eq]
  have := List.length_filter_le (fun a => decide (a.password = k)) g
  omega

theorem auditReused_perm_direct (entries : List Entry) :
    (auditReused entries).Perm (reusedDirectNonEmpty entries) := by
  unfold auditReused reusedDirectNonEmpty reusedBySpecDirect
  set p := entries.filter (fun e => e.password ≠ []) with hp
  have hguard : (groupByKey (fun e => coarseKey e.password) p).flatMap
      (fun group => if group.length < 2 then []
        else (groupByKey (fun e => e.password) group).filter
          (fun eg => 2 ≤ eg.length)) =
    (groupByKey (fun e => coarseKey e.password) p).flatMap
      (fun group => (groupByKey (fun e => e.password) group).filter
        (fun eg => 2 ≤ eg.length)) := by
    apply List.flatMap_congr
    intro g _
    split
    · next hlt => exact (exact_clusters_short g hlt).symm
    · rfl
  rw [hguard]
  simp only [groupByKey]
  rw [List.flatMap_map]
  have hstep : ∀ c : Nat × List Char,
      ((dedupFirst ((p.filter (fun a => coarseKey a.password = c)).map
          (fun e => e.password))).map
        (fun k => (p.filter (fun a => coarseKey a.password = c)).filter
          (fun a => a.password = k))).filter (fun eg => 2 ≤ eg.length) =
      (((dedupFirst (p.map (fun e => e.password))).filter
          (fun w => coarseKey w = c)).map
        (fun k => p.filter (fun a => a.password = k))).filter
        (fun eg => 2 ≤ eg.length) := by
    intro c
    have hbk : (p.filter (fun a => coarseKey a.password = c)).map
          (fun e => e.password) =
        (p.map (fun e => e.password)).filter (fun w => coarseKey w = c) :=
      map_filter_comp (fun e => e.password)
        (fun w => decide (coarseKey w = c)) p
    rw [hbk, dedupFirst_filter]
    have hgrp : ∀ k ∈ (dedupFirst (p.map (fun e => e.password))).filter
        (fun w => coarseKey w = c),
        (p.filter (fun a => coarseKey a.password = c)).filter
          (fun a => a.password = k) =
        p.filter (fun a => a.password = k) := by
      intro k hk
      have hck : coarseKey k = c := by
        have := (List.mem_filter.1 hk).2
        simpa using this
      rw [List.filter_filter]
      apply List.filter_congr
      intro a _
      by_cases hak : a.password = k
      · simp [hak, hck]
      · simp [hak]
    exact congrArg (List.filter _) (List.map_eq_map_iff.mpr hgrp)
  rw [List.flatMap_congr (fun c _ => hstep c)]
  rw [← List.filter_flatMap, ← List.map_flatMap]
  apply List.Perm.filter
  apply List.Perm.map
  apply flatMap_filter_perm (g := fun w => coarseKey w)
  · exact dedupFirst_nodup _
  · intro wv hw
    have hw' : wv ∈ p.map (fun e => e.password) := mem_dedupFirst.1 hw
    apply mem_dedupFirst.2
    obtain ⟨e, he, rfl⟩ := List.mem_map.1 hw'
    exact List.mem_map.2 ⟨e, he, rfl⟩

/-- C8 counterexample: two entries with empty passwords form a
size-2 group under a direct partition of the entries by exact password
value, yet the audit reports no reused cluster for them (it skips falsy
passwords before bucketing), so the two collections of clusters are not
equal. -/
theorem auditReused_counterexample :
    auditReused [entryEmptyPw, entryEmptyPw2] = [] ∧
    reusedBySpecDirect [entryEmptyPw, entryEmptyPw2] =
      [[entryEmptyPw, entryEmptyPw2]] :=
  ⟨by decide, by decide⟩

/-- C8 amended: restricted to entries with a non-empty password, the
two-stage grouping produces exactly the clusters of the direct
exact-password partition (as an unordered collection, i.e. up to
permutation of the cluster list); and for passwords ["x", "x", "y"] the
audit reports exactly one reused cluster, of size 2. -/
theorem auditReused_direct_equiv :
    (∀ entries : List Entry,
      (auditReused entries).Perm (reusedDirectNonEmpty entries)) ∧
    auditReused [entryX1, entryX2, entryY] = [[entryX1, entryX2]] :=
  ⟨auditReused_perm_direct, by decide⟩

end SPC

